import Mathlib

/-!
Verification of the CPL auction server (Mock-IPL-Auction repository).

The repository contains three near-duplicate variants of the same server.
Namespace `ServerB` embeds the variant with MongoDB persistence (the most
complete one: it has `handleReAuction`, `declareWinner` with the
remaining-budget tiebreak, `BEFORE_SOLD` and `BEFORE_SKIP` snapshots, and
last-writer-wins `joinAsTeam`).  Namespace `ServerA` embeds
`backend/server.js` (inline re-auction transition, undo restricted to
`BEFORE_BID`, skip marks items `unsold`).  Fields and control flow are
translated line by line from the JavaScript; persistence calls, logging
and transport plumbing are side effects outside the auction state and are
not part of the state transitions.  Machine numbers are modelled as `Int`
(JavaScript numbers stay far below 2^53 here, so no overflow wrapping
occurs), strings as `String`, and null-able fields as `Option`.
-/

namespace Auction

/-- Item of the catalog.  The JS objects stored in a team roster carry two
extra fields (`boughtPrice`, `individualSynergy`) added by the spread in
`soldPlayer`; they are modelled as optional fields that are `none` on a
catalog entry. -/
structure Player where
  sNo : String
  name : String
  role : String
  archetype : String
  baseScore : Int
  basePrice : Int
  status : String
  soldToTeam : Option Nat
  soldPrice : Option Int
  boughtPrice : Option Int
  individualSynergy : Option Int
deriving DecidableEq, Repr

/-- Team record, as created in the `teams` array initializer. -/
structure Team where
  id : Nat
  name : String
  budget : Int
  remaining : Int
  spent : Int
  players : List Player
  synergy : Int
  isConnected : Bool
  socketId : Option String
deriving DecidableEq, Repr

/-- Observable socket emissions.  Only the payload fields the claims talk
about are retained. -/
inductive Event where
  | bidPlaced (teamId : Nat) (amount : Int) (playerName : String)
  | playerSold (teamId : Nat) (amount : Int)
  | playerSkipped (playerName : String)
  | bidReset
  | reAuctionStart (unsoldCount : Nat)
  | auctionComplete (winner : Option Team) (standings : List Team)
  | auctionCompleteWinnerOnly (winner : Option Team)
  | setSummary
  | undoCompleted (tag : String)
  | connectionStatus
  | forceDisconnect (socketId : String)
  | errorEv (msg : String)
deriving DecidableEq, Repr

/-- `sanitizeString`: the JS helper returns `str.toString().trim()` for a
non-null string; our strings are never null. -/
def sanitizeString (s : String) : String := s.trim

/-- `synergyRules.positive` lookup; a missing key contributes 0
(the JS expression `synergyRules.positive[key] || 0`). -/
def positiveRule (key : String) : Int :=
  (([("AO-AN", 20), ("BA-FI", 15), ("AN-WK", 15), ("BA-BO", 20),
     ("PA-SP", 25), ("PA-PA", 10), ("CS-PA", 20), ("CS-SP", 15),
     ("BA-CS", 10), ("BO-CS", 10)] : List (String × Int)).lookup key).getD 0

/-- `synergyRules.negative` lookup; a missing key contributes 0. -/
def negativeRule (key : String) : Int :=
  (([("AO-AO", -15), ("FI-FI", -10), ("SP-SP", -5), ("BA-BA", -5),
     ("WK-WK", -10), ("CS-CS", -10), ("BO-BO", -5)] : List (String × Int)).lookup key).getD 0

/-- Canonical pair key: `if (arch1 > arch2) [arch1, arch2] = [arch2, arch1]`
followed by the template literal joining them with a hyphen. -/
def archKey (a1 a2 : String) : String :=
  if a2 < a1 then a2 ++ "-" ++ a1 else a1 ++ "-" ++ a2

/-- Contribution of one unordered pair inside the `calculateSynergy` double
loop: both players must have a non-empty trimmed archetype, the key is
canonicalised, and the positive and negative accumulators are merged into a
single sum per pair (the loop adds the two table values to two separate
accumulators that are summed at the end, which totals the same). -/
def pairScore (p1 p2 : Player) : Int :=
  if sanitizeString p1.archetype = "" ∨ sanitizeString p2.archetype = "" then 0
  else
    positiveRule (archKey (sanitizeString p1.archetype) (sanitizeString p2.archetype)) +
      negativeRule (archKey (sanitizeString p1.archetype) (sanitizeString p2.archetype))

/-- The `for i, for j in (i, length)` double loop of `calculateSynergy`:
each head is paired against every later element. -/
def pairLoop : List Player → Int
  | [] => 0
  | p :: ps => (ps.map (pairScore p)).sum + pairLoop ps

/-- `calculateSynergy(roster)`: 0 for an empty roster, otherwise the sum of
base scores plus the pairwise bonuses/penalties.  The JS guard
`typeof player.baseScore === 'number'` always holds here because
`baseScore` is a field of `Player`. -/
def calculateSynergy (roster : List Player) : Int :=
  if roster.isEmpty then 0
  else (roster.map (·.baseScore)).sum + pairLoop roster

/-- Inner loop of `calculatePlayerSynergy`: pair the target against every
roster member whose position differs from `skip`, starting at position `i`. -/
def playerSynergyLoop (target : Player) : List Player → Nat → Nat → Int
  | [], _, _ => 0
  | p :: ps, i, skip =>
      (if i = skip then 0 else pairScore target p) + playerSynergyLoop target ps (i + 1) skip

/-- `calculatePlayerSynergy(targetPlayer, roster)`: 0 when the target is not
found by serial number, otherwise its base score plus the pair bonuses
against every other member. -/
def calculatePlayerSynergy (target : Player) (roster : List Player) : Int :=
  if roster.isEmpty then 0
  else
    match roster.findIdx? (fun p => p.sNo == target.sNo) with
    | none => 0
    | some idx => target.baseScore + playerSynergyLoop target roster 0 idx

/-- `getIncrement(bid)` — identical tier table in `backend/server.js` and the
MongoDB variant. -/
def getIncrement (bid : Int) : Int :=
  if bid < 5000000 then 500000
  else if bid < 10000000 then 1000000
  else if bid < 20000000 then 2000000
  else 5000000

/-- The 3-way partition built in `loadPlayers`: slices of size
`Math.ceil(n/3)` (ceiling division is `(n+2)/3` on naturals). -/
def makeSets (l : List Player) : List (List Player) :=
  let pps := (l.length + 2) / 3
  [l.take pps, (l.drop pps).take pps, l.drop (2 * pps)]

/-- The JS `action.startsWith(pre)` test, computed on the character lists
(same truth value as `String.startsWith`, but it evaluates inside the
kernel). -/
def strStarts (s pre : String) : Bool :=
  decide (s.data.take pre.data.length = pre.data)

/-- A snapshot stores teams with `socketId: undefined`. -/
def stripSocket (t : Team) : Team := { t with socketId := none }

/-- One step of the `restoreAuctionSnapshot` team loop:
`teams[index] = { ...savedTeam, socketId: currentSocketId, isConnected: currentIsConnected }`. -/
def mergeTeam (cur saved : Team) : Team :=
  { saved with socketId := cur.socketId, isConnected := cur.isConnected }

/-- The whole team-restoring loop: saved entries are merged positionally;
live entries beyond the saved list are left untouched (the loop runs over
the saved array and checks `if (teams[index])`). -/
def mergeTeams (live saved : List Team) : List Team :=
  List.zipWith mergeTeam live saved ++ live.drop saved.length

/-- `updatePlayerStatus` mutates the first entry of `allPlayers` with the
given serial number; `soldToTeam`/`soldPrice` are only overwritten when the
arguments are truthy (a team id is never 0, a recorded price is never 0). -/
def updatePlayerStatus (l : List Player) (sNo status : String)
    (soldToTeam : Option Nat) (soldPrice : Option Int) : List Player :=
  match l.findIdx? (fun p => p.sNo == sNo) with
  | none => l
  | some i =>
    match l[i]? with
    | none => l
    | some p =>
      l.set i { p with
        status := status,
        soldToTeam :=
          match soldToTeam with
          | some t => if t ≠ 0 then some t else p.soldToTeam
          | none => p.soldToTeam,
        soldPrice :=
          match soldPrice with
          | some v => if v ≠ 0 then some v else p.soldPrice
          | none => p.soldPrice }

/-! ### Permutation invariance of the synergy scorer -/

theorem archKey_comm (a b : String) : archKey a b = archKey b a := by
  unfold archKey
  rcases lt_trichotomy a b with h | h | h
  · rw [if_neg (asymm h), if_pos h]
  · subst h; rfl
  · rw [if_pos h, if_neg (asymm h)]

theorem pairScore_comm (p q : Player) : pairScore p q = pairScore q p := by
  unfold pairScore
  rw [archKey_comm (sanitizeString p.archetype) (sanitizeString q.archetype)]
  by_cases h1 : sanitizeString p.archetype = "" <;>
    by_cases h2 : sanitizeString q.archetype = "" <;>
      simp [h1, h2]

theorem pairLoop_perm {l₁ l₂ : List Player} (h : l₁.Perm l₂) :
    pairLoop l₁ = pairLoop l₂ := by
  induction h with
  | nil => rfl
  | cons x h ih =>
    simp only [pairLoop, ih, (h.map (pairScore x)).sum_eq]
  | swap x y l =>
    simp only [pairLoop, List.map_cons, List.sum_cons, pairScore_comm x y]
    ring
  | trans _ _ ih₁ ih₂ => exact ih₁.trans ih₂

/-- C8: `calculateSynergy` depends only on the multiset of roster members:
for every roster and every permutation of it the score is identical, because
each unordered pair is looked up under the lexicographically sorted
archetype key (`pairScore` is symmetric) and the base-score sum is
permutation invariant. -/
theorem calculateSynergy_perm_invariant {r₁ r₂ : List Player} (h : r₁.Perm r₂) :
    calculateSynergy r₁ = calculateSynergy r₂ := by
  unfold calculateSynergy
  cases r₁ with
  | nil =>
    have h2 : r₂ = [] := h.symm.eq_nil
    subst h2; rfl
  | cons x xs =>
    have h2 : r₂.isEmpty = false := by
      rw [List.isEmpty_eq_false_iff_exists_mem]
      exact ⟨x, h.mem_iff.mp (List.mem_cons_self x xs)⟩
    rw [h2, (h.map (·.baseScore)).sum_eq, pairLoop_perm h]
    simp

/-- Sample players used by the concrete witnesses. -/
def samplePlayer1 : Player :=
  { sNo := "1", name := "P1", role := "Batsman", archetype := "BA",
    baseScore := 80, basePrice := 1000000, status := "available",
    soldToTeam := none, soldPrice := none, boughtPrice := none,
    individualSynergy := none }

/-- A second sample player. -/
def samplePlayer2 : Player :=
  { sNo := "2", name := "P2", role := "Bowler", archetype := "BO",
    baseScore := 70, basePrice := 2000000, status := "available",
    soldToTeam := none, soldPrice := none, boughtPrice := none,
    individualSynergy := none }

theorem calculateSynergy_perm_invariant_witness :
    ([samplePlayer1, samplePlayer2].Perm [samplePlayer2, samplePlayer1]) ∧
      calculateSynergy [samplePlayer1, samplePlayer2] =
        calculateSynergy [samplePlayer2, samplePlayer1] :=
  ⟨List.Perm.swap samplePlayer2 samplePlayer1 [],
   calculateSynergy_perm_invariant (List.Perm.swap samplePlayer2 samplePlayer1 [])⟩

namespace ServerB

/-- Snapshot pushed by `createAuctionSnapshot` in the MongoDB variant:
action tag, optional player-name payload, and deep copies of the listed
state fields; team entries are stored with `socketId: undefined`. -/
structure Snapshot where
  action : String
  playerName : Option String
  currentPlayerIndex : Nat
  currentBid : Int
  currentBidTeam : Option Nat
  isReAuction : Bool
  unsold : List Player
  reAuctionUnsold : List Player
  teams : List Team
  allPlayers : List Player
deriving DecidableEq, Repr

/-- The module-level mutable auction state of the MongoDB variant.  The
`sets` array is always the value `makeSets players` computed at load time
and never mutated afterwards, so it is derived rather than stored.
`auctionHistory` is kept most-recent-first: a JS `push`/`pop` at the array
end is a cons/head here, and `shift()` (evict the oldest) is `dropLast`. -/
structure AuctionState where
  players : List Player
  allPlayers : List Player
  unsold : List Player
  currentPlayerIndex : Nat
  currentBid : Int
  currentBidTeam : Option Nat
  isReAuction : Bool
  reAuctionUnsold : List Player
  teams : List Team
  connectedTeams : List Nat
  auctionHistory : List Snapshot
deriving DecidableEq, Repr

/-- `getCurrentPlayer()`: the re-auction queue entry during re-auction,
otherwise the entry of the 3-way set partition addressed by
`currentPlayerIndex` (with `playersPerSet = Math.ceil(n/3)`). -/
def getCurrentPlayer (s : AuctionState) : Option Player :=
  if s.isReAuction then s.reAuctionUnsold[s.currentPlayerIndex]?
  else if s.players.length ≤ s.currentPlayerIndex then none
  else
    let pps := (s.players.length + 2) / 3
    match (makeSets s.players)[s.currentPlayerIndex / pps]? with
    | none => none
    | some set => set[s.currentPlayerIndex % pps]?

/-- `createAuctionSnapshot` body: capture the current state (the team
copies drop their socket ids). -/
def snapshotOf (action : String) (playerName : Option String) (s : AuctionState) : Snapshot :=
  { action := action, playerName := playerName,
    currentPlayerIndex := s.currentPlayerIndex, currentBid := s.currentBid,
    currentBidTeam := s.currentBidTeam, isReAuction := s.isReAuction,
    unsold := s.unsold, reAuctionUnsold := s.reAuctionUnsold,
    teams := s.teams.map stripSocket, allPlayers := s.allPlayers }

/-- `auctionHistory.push(snapshot)` followed by the bounded-size eviction
`if (length > MAX_HISTORY_SIZE) shift()` with `MAX_HISTORY_SIZE = 50`. -/
def pushSnapshot (h : List Snapshot) (snap : Snapshot) : List Snapshot :=
  if 50 < (snap :: h).length then (snap :: h).dropLast else snap :: h

/-- `restoreAuctionSnapshot`: every captured field is written back; the
team loop keeps each live team's `socketId` and `isConnected`. -/
def restoreAuctionSnapshot (s : AuctionState) (snap : Snapshot) : AuctionState :=
  { s with
    currentPlayerIndex := snap.currentPlayerIndex,
    currentBid := snap.currentBid,
    currentBidTeam := snap.currentBidTeam,
    isReAuction := snap.isReAuction,
    unsold := snap.unsold,
    reAuctionUnsold := snap.reAuctionUnsold,
    allPlayers := snap.allPlayers,
    teams := mergeTeams s.teams snap.teams }

/-- Descending ranking relation used by `declareWinner`: the comparator
`(b.synergy || 0) - (a.synergy || 0) || b.remaining - a.remaining` orders
`a` no later than `b` exactly when `b.synergy < a.synergy`, or the
synergies tie and `b.remaining ≤ a.remaining`. -/
def teamBefore (a b : Team) : Prop :=
  b.synergy < a.synergy ∨ (b.synergy = a.synergy ∧ b.remaining ≤ a.remaining)

instance : DecidableRel teamBefore := fun a b => by
  unfold teamBefore; infer_instance

instance : IsTotal Team teamBefore := by
  constructor
  intro a b
  unfold teamBefore
  omega

instance : IsTrans Team teamBefore := by
  constructor
  intro a b c hab hbc
  unfold teamBefore at *
  omega

/-- `declareWinner()`: sort a copy of the teams with the comparator and
broadcast the head as winner together with the full standings. -/
def declareWinner (s : AuctionState) : List Event :=
  [Event.auctionComplete (List.insertionSort teamBefore s.teams).head?
    (List.insertionSort teamBefore s.teams)]

/-- `handleReAuction()`: if no team still needs players or nothing is
unsold, declare the winner; otherwise move a shuffled copy of the unsold
list into the re-auction queue and restart the index.  The random
`sort(() => Math.random() - 0.5)` is abstracted as the `shuffle`
parameter. -/
def handleReAuction (shuffle : List Player → List Player) (s : AuctionState) :
    AuctionState × List Event :=
  if (s.teams.filter (fun t => t.players.length < 8)).length = 0 ∨ s.unsold.length = 0 then
    (s, declareWinner s)
  else
    ({ s with reAuctionUnsold := shuffle s.unsold, currentPlayerIndex := 0, isReAuction := true },
     [Event.reAuctionStart (shuffle s.unsold).length])

/-- The phase-boundary check shared verbatim by `soldPlayer` and
`skipPlayer`:
`if (currentPlayerIndex >= players.length && !isReAuction) handleReAuction();
 else if (isReAuction && currentPlayerIndex >= reAuctionUnsold.length) declareWinner();`. -/
def phaseCheck (shuffle : List Player → List Player) (s : AuctionState) :
    AuctionState × List Event :=
  if s.isReAuction = false ∧ s.players.length ≤ s.currentPlayerIndex then
    handleReAuction shuffle s
  else if s.isReAuction = true ∧ s.reAuctionUnsold.length ≤ s.currentPlayerIndex then
    (s, declareWinner s)
  else (s, [])

/-- `validateBid(teamId, newBid)`; returns the rejection reason, `none` on
success.  A valid team id (1..8) always addresses an existing entry of the
8-element `teams` array; the impossible missing-team case is treated as a
rejection. -/
def validateBid (s : AuctionState) (teamId : Nat) (newBid : Int) : Option String :=
  if 1 ≤ teamId ∧ teamId ≤ 8 then
    match s.teams[teamId - 1]? with
    | none => some "Invalid team ID"
    | some team =>
      match getCurrentPlayer s with
      | none => some "No player available"
      | some _ =>
        if 8 ≤ team.players.length then some "Team roster is full (8 players)"
        else if team.remaining < newBid then some "Insufficient team budget"
        else if newBid ≤ 0 then some "Bid must be positive"
        else none
  else some "Invalid team ID"

/-- `placeBidForTeam(teamId)`: first bid jumps to the base price, later
bids add the increment; on a validation failure only an error is reported
and the state is unchanged. -/
def placeBidForTeam (s : AuctionState) (teamId : Nat) : AuctionState × List Event :=
  match getCurrentPlayer s with
  | none => (s, [])
  | some player =>
    let newBid := if s.currentBid = 0 then player.basePrice
                  else s.currentBid + getIncrement s.currentBid
    match validateBid s teamId newBid with
    | some reason => (s, [Event.errorEv reason])
    | none =>
      ({ s with currentBid := newBid, currentBidTeam := some teamId },
       [Event.bidPlaced teamId newBid player.name])

/-- The roster after the sale: the spread
`{ ...player, boughtPrice, individualSynergy }` appended at the end. -/
def soldRoster (s : AuctionState) (team : Team) (player : Player) : List Player :=
  team.players ++
    [{ player with
        boughtPrice := some s.currentBid,
        individualSynergy :=
          some (calculatePlayerSynergy player (team.players ++ [player])) }]

/-- The buying team after the sale: debit `remaining`, credit `spent`,
extend the roster, recompute its synergy. -/
def soldTeam (s : AuctionState) (team : Team) (player : Player) : Team :=
  { team with
    remaining := team.remaining - s.currentBid,
    spent := team.spent + s.currentBid,
    players := soldRoster s team player,
    synergy := calculateSynergy (soldRoster s team player) }

/-- The state after the mutation block of `soldPlayer` (before the
phase-boundary check): snapshot pushed, team updated, catalog entry marked
sold, pointer advanced, bid cleared. -/
def soldState (s : AuctionState) (tid : Nat) (team : Team) (player : Player) : AuctionState :=
  { s with
    teams := s.teams.set (tid - 1) (soldTeam s team player),
    allPlayers := updatePlayerStatus s.allPlayers player.sNo "sold" (some tid) (some s.currentBid),
    auctionHistory := pushSnapshot s.auctionHistory (snapshotOf "BEFORE_SOLD" (some player.name) s),
    currentPlayerIndex := s.currentPlayerIndex + 1,
    currentBid := 0,
    currentBidTeam := none }

/-- `soldPlayer`: guarded sale.  Snapshot `BEFORE_SOLD`, debit the buying
team, append the award (with its marginal synergy), recompute the roster
synergy, mark the catalog entry sold, advance the pointer, clear the bid,
then run the phase-boundary check. -/
def soldPlayer (shuffle : List Player → List Player) (s : AuctionState) :
    AuctionState × List Event :=
  match s.currentBidTeam with
  | none => (s, [])
  | some tid =>
    if s.currentBid = 0 then (s, [])
    else
      match s.teams[tid - 1]? with
      | none => (s, [])
      | some team =>
        match getCurrentPlayer s with
        | none => (s, [])
        | some player =>
          if team.remaining < s.currentBid then (s, [])
          else
            let r := phaseCheck shuffle (soldState s tid team player)
            (r.1, Event.playerSold tid s.currentBid :: r.2)

/-- The state after the mutation block of `skipPlayer` (before the
phase-boundary check): snapshot pushed, item appended to the unsold list
and marked `available`, pointer advanced, bid cleared. -/
def skipState (s : AuctionState) (player : Player) : AuctionState :=
  { s with
    unsold := s.unsold ++ [player],
    allPlayers := updatePlayerStatus s.allPlayers player.sNo "available" none none,
    auctionHistory := pushSnapshot s.auctionHistory (snapshotOf "BEFORE_SKIP" (some player.name) s),
    currentPlayerIndex := s.currentPlayerIndex + 1,
    currentBid := 0,
    currentBidTeam := none }

/-- `skipPlayer` (MongoDB variant): snapshot `BEFORE_SKIP`, push the item
onto the unsold list, mark it `available` again, advance the pointer,
clear the bid, then run the phase-boundary check. -/
def skipPlayer (shuffle : List Player → List Player) (s : AuctionState) :
    AuctionState × List Event :=
  match getCurrentPlayer s with
  | none => (s, [])
  | some player =>
    let r := phaseCheck shuffle (skipState s player)
    (r.1, Event.playerSkipped player.name :: r.2)

/-- `undoLastAction` (MongoDB variant): pop the most recent snapshot; the
non-auctioneer and empty-history guards return silently, a popped snapshot
whose tag does not start with `BEFORE_` is discarded without a restore,
otherwise the snapshot is restored and `undoCompleted` names the reverted
action (`action.replace('BEFORE_', '')`, i.e. the tag after the first 7
characters). -/
def undoLastAction (s : AuctionState) : AuctionState × List Event :=
  match s.auctionHistory with
  | [] => (s, [])
  | snap :: rest =>
    if strStarts snap.action "BEFORE_" then
      (restoreAuctionSnapshot { s with auctionHistory := rest } snap,
       [Event.undoCompleted (snap.action.drop 7)])
    else ({ s with auctionHistory := rest }, [])

/-- `joinAsTeam(teamId)` (MongoDB variant): an invalid id is rejected; a
slot held by a *different* live connection causes a `forceDisconnect` sent
to the previous occupant, then the new socket takes over the slot
unconditionally and the connection status is rebroadcast. -/
def joinAsTeam (s : AuctionState) (teamId : Nat) (sock : String) :
    AuctionState × List Event :=
  if 1 ≤ teamId ∧ teamId ≤ 8 then
    match s.teams[teamId - 1]? with
    | none => (s, [])
    | some existing =>
      let evs :=
        match existing.socketId with
        | some old => if old = sock then [] else [Event.forceDisconnect old]
        | none => []
      ({ s with
          teams := s.teams.set (teamId - 1)
            { existing with isConnected := true, socketId := some sock },
          connectedTeams :=
            if teamId ∈ s.connectedTeams then s.connectedTeams
            else s.connectedTeams ++ [teamId] },
       evs ++ [Event.connectionStatus])
  else (s, [Event.errorEv "Invalid team ID"])

/-- Operator actions quantified over by the trace claims.  The budget
claim talks about sequences of sell and skip actions. -/
inductive AuctionOp where
  | sell
  | skip
deriving DecidableEq, Repr

/-- Apply one operator action. -/
def applyOp (shuffle : List Player → List Player) (s : AuctionState) :
    AuctionOp → AuctionState × List Event
  | AuctionOp.sell => soldPlayer shuffle s
  | AuctionOp.skip => skipPlayer shuffle s

/-- Run a sequence of operator actions, discarding the emitted events. -/
def runOps (shuffle : List Player → List Player) (ops : List AuctionOp)
    (s : AuctionState) : AuctionState :=
  ops.foldl (fun st op => (applyOp shuffle st op).1) s

/-- The initial `teams` array: 8 fresh teams with a 450,000,000 budget. -/
def initTeams : List Team :=
  (List.range 8).map (fun i =>
    { id := i + 1, name := "Team " ++ toString (i + 1),
      budget := 450000000, remaining := 450000000, spent := 0,
      players := [], synergy := 0, isConnected := false, socketId := none })

/-- The state right after `loadPlayers` populated the catalog: fresh teams,
empty queues, zeroed pointer and bid. -/
def initState (ps : List Player) : AuctionState :=
  { players := ps, allPlayers := ps, unsold := [],
    currentPlayerIndex := 0, currentBid := 0, currentBidTeam := none,
    isReAuction := false, reAuctionUnsold := [], teams := initTeams,
    connectedTeams := [], auctionHistory := [] }

/-- The identity shuffle, used to instantiate the abstract shuffle in the
concrete witnesses. -/
def idShuffle (l : List Player) : List Player := l

/-- `remaining + spent = budget` for every entry of a team list. -/
def teamsInv (ts : List Team) : Prop :=
  ∀ t ∈ ts, t.remaining + t.spent = t.budget

/-- The budget invariant of a state. -/
def budgetInv (s : AuctionState) : Prop := teamsInv s.teams

/-! ### Structural lemmas about the MongoDB-variant operations -/

theorem phaseCheck_fields (sh : List Player → List Player) (s : AuctionState) :
    (phaseCheck sh s).1.teams = s.teams ∧ (phaseCheck sh s).1.unsold = s.unsold ∧
    (phaseCheck sh s).1.allPlayers = s.allPlayers ∧
    (phaseCheck sh s).1.auctionHistory = s.auctionHistory ∧
    (phaseCheck sh s).1.players = s.players := by
  unfold phaseCheck handleReAuction
  split
  · split <;> exact ⟨rfl, rfl, rfl, rfl, rfl⟩
  · split <;> exact ⟨rfl, rfl, rfl, rfl, rfl⟩

theorem phaseCheck_state_of_reauction (sh : List Player → List Player) (s : AuctionState)
    (h : s.isReAuction = true) : (phaseCheck sh s).1 = s := by
  unfold phaseCheck
  rw [if_neg (by simp [h])]
  split <;> rfl

theorem skipPlayer_teams (sh : List Player → List Player) (s : AuctionState) :
    (skipPlayer sh s).1.teams = s.teams := by
  unfold skipPlayer
  split
  · rfl
  · exact (phaseCheck_fields sh _).1

theorem soldPlayer_budgetInv (sh : List Player → List Player) (s : AuctionState)
    (h : budgetInv s) : budgetInv (soldPlayer sh s).1 := by
  unfold soldPlayer
  cases hbt : s.currentBidTeam with
  | none => exact h
  | some tid =>
    dsimp only
    by_cases hbid : s.currentBid = 0
    · rw [if_pos hbid]; exact h
    · rw [if_neg hbid]
      cases hteam : s.teams[tid - 1]? with
      | none => exact h
      | some team =>
        dsimp only
        cases hplayer : getCurrentPlayer s with
        | none => exact h
        | some player =>
          dsimp only
          by_cases hfunds : team.remaining < s.currentBid
          · rw [if_pos hfunds]; exact h
          · rw [if_neg hfunds]
            unfold budgetInv
            rw [(phaseCheck_fields sh _).1]
            show teamsInv (s.teams.set (tid - 1) (soldTeam s team player))
            intro t ht
            rcases List.mem_or_eq_of_mem_set ht with hmem | heq
            · exact h t hmem
            · subst heq
              have hb := h team (List.getElem?_mem hteam)
              simp only [soldTeam]
              omega

theorem skipPlayer_budgetInv (sh : List Player → List Player) (s : AuctionState)
    (h : budgetInv s) : budgetInv (skipPlayer sh s).1 := by
  unfold budgetInv teamsInv
  rw [skipPlayer_teams sh s]
  exact h

theorem runOps_budgetInv (sh : List Player → List Player) (ops : List AuctionOp)
    (s : AuctionState) (h : budgetInv s) : budgetInv (runOps sh ops s) := by
  induction ops generalizing s with
  | nil => exact h
  | cons op ops ih =>
    cases op with
    | sell => exact ih _ (soldPlayer_budgetInv sh s h)
    | skip => exact ih _ (skipPlayer_budgetInv sh s h)

/-- C1: for every team, after every sequence of sell and skip actions from
the initial state, `remaining + spent = budget` holds; moreover a
successful sale debits exactly `currentBid` from the buying team's
`remaining` and credits exactly `currentBid` to its `spent`. -/
theorem budget_invariant_and_sale_arithmetic (shuffle : List Player → List Player) :
    (∀ ps ops, budgetInv (runOps shuffle ops (initState ps))) ∧
    (∀ s tid team player,
      s.currentBidTeam = some tid → s.currentBid ≠ 0 →
      s.teams[tid - 1]? = some team → getCurrentPlayer s = some player →
      ¬ team.remaining < s.currentBid →
      ∃ team2, (soldPlayer shuffle s).1.teams[tid - 1]? = some team2 ∧
        team2.remaining = team.remaining - s.currentBid ∧
        team2.spent = team.spent + s.currentBid) := by
  constructor
  · intro ps ops
    apply runOps_budgetInv
    intro t ht
    have hall : ∀ u ∈ initTeams, u.remaining + u.spent = u.budget := by decide
    exact hall t ht
  · intro s tid team player hbt hbid hteam hplayer hfunds
    have hlt : tid - 1 < s.teams.length := (List.getElem?_eq_some_iff.mp hteam).1
    unfold soldPlayer
    rw [hbt]
    dsimp only
    simp only [if_neg hbid, hteam, hplayer, if_neg hfunds]
    rw [(phaseCheck_fields shuffle _).1,
      show (soldState s tid team player).teams =
        s.teams.set (tid - 1) (soldTeam s team player) from rfl,
      List.getElem?_set_self (by simpa using hlt)]
    exact ⟨_, rfl, rfl, rfl⟩

theorem budget_invariant_and_sale_arithmetic_witness :
    budgetInv (runOps idShuffle [AuctionOp.skip, AuctionOp.sell] (initState [samplePlayer1])) ∧
    ((initState [samplePlayer1]).currentBidTeam = none) :=
  ⟨(budget_invariant_and_sale_arithmetic idShuffle).1 [samplePlayer1]
    [AuctionOp.skip, AuctionOp.sell], rfl⟩

/-- C3: `placeBid` on a team with an active item computes the stored bid as
the item's base price when there is no prior bid, and as
`currentBid + getIncrement currentBid` otherwise. -/
theorem placeBid_first_bid_is_base_price (s : AuctionState) (teamId : Nat) (player : Player)
    (hp : getCurrentPlayer s = some player)
    (hv : validateBid s teamId
      (if s.currentBid = 0 then player.basePrice
       else s.currentBid + getIncrement s.currentBid) = none) :
    (placeBidForTeam s teamId).1.currentBid =
      (if s.currentBid = 0 then player.basePrice
       else s.currentBid + getIncrement s.currentBid) ∧
    (placeBidForTeam s teamId).1.currentBidTeam = some teamId ∧
    (s.currentBid = 0 → (placeBidForTeam s teamId).1.currentBid = player.basePrice) := by
  unfold placeBidForTeam
  rw [hp]
  simp only [hv]
  refine ⟨?_, ?_, fun h0 => ?_⟩
  · simp
  · simp
  · simp [h0]

theorem placeBid_first_bid_is_base_price_witness :
    (initState [samplePlayer1]).currentBid = 0 ∧
    (placeBidForTeam (initState [samplePlayer1]) 1).1.currentBid = samplePlayer1.basePrice :=
  ⟨rfl,
   (placeBid_first_bid_is_base_price (initState [samplePlayer1]) 1 samplePlayer1
      (by decide) (by decide)).2.2 rfl⟩

/-- C5: `declareWinner` ranks the teams by synergy descending with ties
broken by remaining budget descending, and the declared winner is the
top-ranked team under that order. -/
theorem declareWinner_top_ranked (s : AuctionState) (hne : s.teams ≠ []) :
    ∃ w standings,
      declareWinner s = [Event.auctionComplete (some w) standings] ∧
      w ∈ s.teams ∧
      standings.Pairwise (fun a b =>
        b.synergy < a.synergy ∨ (b.synergy = a.synergy ∧ b.remaining ≤ a.remaining)) ∧
      ∀ t ∈ s.teams,
        t.synergy < w.synergy ∨ (t.synergy = w.synergy ∧ t.remaining ≤ w.remaining) := by
  have hperm := List.perm_insertionSort teamBefore s.teams
  have hsorted := List.sorted_insertionSort teamBefore s.teams
  obtain ⟨w, rest, hcons⟩ :
      ∃ w rest, List.insertionSort teamBefore s.teams = w :: rest := by
    cases hs : List.insertionSort teamBefore s.teams with
    | nil => exact absurd (hs ▸ hperm).symm.eq_nil hne
    | cons w rest => exact ⟨w, rest, rfl⟩
  have hmemw : w ∈ s.teams := hperm.mem_iff.mp (hcons ▸ List.mem_cons_self w rest)
  have hmax : ∀ t ∈ s.teams, teamBefore w t := by
    intro t ht
    have ht' : t ∈ w :: rest := hcons ▸ hperm.mem_iff.mpr ht
    rcases List.mem_cons.mp ht' with h | h
    · subst h; exact Or.inr ⟨rfl, le_refl _⟩
    · rw [hcons, List.sorted_cons] at hsorted
      exact hsorted.1 t h
  refine ⟨w, List.insertionSort teamBefore s.teams, ?_, hmemw, ?_, ?_⟩
  · unfold declareWinner
    rw [hcons]
    rfl
  · exact hsorted.imp (fun h => h)
  · exact hmax

/-- A team with synergy 10 and little money left. -/
def sampleTeamA : Team :=
  { id := 1, name := "Team 1", budget := 450000000, remaining := 5,
    spent := 449999995, players := [], synergy := 10, isConnected := false,
    socketId := none }

/-- A team with the same synergy but more remaining budget. -/
def sampleTeamB : Team :=
  { id := 2, name := "Team 2", budget := 450000000, remaining := 7,
    spent := 449999993, players := [], synergy := 10, isConnected := false,
    socketId := none }

/-- A finished state with two equal-synergy teams. -/
def tieState : AuctionState :=
  { initState [] with teams := [sampleTeamA, sampleTeamB] }

theorem declareWinner_top_ranked_witness :
    tieState.teams ≠ [] ∧
    (∃ w standings,
      declareWinner tieState = [Event.auctionComplete (some w) standings] ∧
      w ∈ tieState.teams ∧
      standings.Pairwise (fun a b =>
        b.synergy < a.synergy ∨ (b.synergy = a.synergy ∧ b.remaining ≤ a.remaining)) ∧
      ∀ t ∈ tieState.teams,
        t.synergy < w.synergy ∨ (t.synergy = w.synergy ∧ t.remaining ≤ w.remaining)) :=
  ⟨by decide, declareWinner_top_ranked tieState (by decide)⟩

/-! ### Re-auction trigger policy -/

/-- Outcome asserted by the re-auction trigger policy for the result of an
exhausting sell/skip: the phase flips to re-auction exactly when something
is unsold and some roster is below 8; then the queue is the shuffled unsold
list and the index restarts; otherwise completion is broadcast. -/
def reauctionOutcome (shuffle : List Player → List Player)
    (r : AuctionState × List Event) : Prop :=
  (r.1.isReAuction = true ↔
    (r.1.unsold ≠ [] ∧ ∃ t ∈ r.1.teams, t.players.length < 8)) ∧
  (r.1.isReAuction = true →
    r.1.reAuctionUnsold = shuffle r.1.unsold ∧ r.1.currentPlayerIndex = 0) ∧
  (r.1.isReAuction = false → ∃ w st, Event.auctionComplete w st ∈ r.2)

theorem handleReAuction_outcome (sh : List Player → List Player) (s1 : AuctionState)
    (hmain : s1.isReAuction = false) : reauctionOutcome sh (handleReAuction sh s1) := by
  unfold reauctionOutcome handleReAuction
  split
  next hcond =>
    refine ⟨⟨fun habs => ?_, ?_⟩, fun habs => ?_, fun _ => ?_⟩
    · rw [hmain] at habs; cases habs
    · rintro ⟨hne, t, htmem, htlt⟩
      rcases hcond with h0 | h0
      · have hnone := List.filter_eq_nil_iff.mp (List.length_eq_zero.mp h0) t htmem
        simp only [decide_eq_true_eq] at hnone
        exact absurd htlt hnone
      · exact absurd (List.length_eq_zero.mp h0) hne
    · rw [hmain] at habs; cases habs
    · exact ⟨(List.insertionSort teamBefore s1.teams).head?,
        List.insertionSort teamBefore s1.teams,
        by unfold declareWinner; exact List.mem_singleton_self _⟩
  next hcond =>
    push_neg at hcond
    obtain ⟨h1, h2⟩ := hcond
    refine ⟨⟨fun _ => ⟨?_, ?_⟩, fun _ => rfl⟩, fun _ => ⟨rfl, rfl⟩, fun habs => ?_⟩
    · intro h0
      exact h2 (by rw [h0]; rfl)
    · have hne : s1.teams.filter (fun t => t.players.length < 8) ≠ [] := by
        intro h0; exact h1 (by rw [h0]; rfl)
      obtain ⟨t, htmem⟩ := List.exists_mem_of_ne_nil _ hne
      have hmem := List.mem_filter.mp htmem
      exact ⟨t, hmem.1, by simpa using hmem.2⟩
    · cases habs

theorem reauctionOutcome_cons (sh : List Player → List Player)
    (r : AuctionState × List Event) (e : Event) (h : reauctionOutcome sh r) :
    reauctionOutcome sh (r.1, e :: r.2) := by
  obtain ⟨h1, h2, h3⟩ := h
  refine ⟨h1, h2, fun hf => ?_⟩
  obtain ⟨w, st, hm⟩ := h3 hf
  exact ⟨w, st, List.mem_cons_of_mem _ hm⟩

theorem phaseCheck_main_boundary (sh : List Player → List Player) (s : AuctionState)
    (hmain : s.isReAuction = false) (hb : s.players.length ≤ s.currentPlayerIndex) :
    phaseCheck sh s = handleReAuction sh s := by
  unfold phaseCheck
  rw [if_pos ⟨hmain, hb⟩]

theorem phaseCheck_reauction_complete (sh : List Player → List Player) (s : AuctionState)
    (h : s.isReAuction = true) (hlen : s.reAuctionUnsold.length ≤ s.currentPlayerIndex) :
    phaseCheck sh s = (s, declareWinner s) := by
  unfold phaseCheck
  rw [if_neg (by simp [h]), if_pos ⟨h, hlen⟩]

/-- C2: when the main sequence is exhausted by a sell or a skip, the phase
becomes re-auction iff the unsold queue is non-empty and some team roster
is below 8; then `reAuctionUnsold` is the shuffled unsold queue and the
index restarts at 0; otherwise completion is broadcast. -/
theorem reauction_trigger_policy (shuffle : List Player → List Player) :
    (∀ s player, getCurrentPlayer s = some player → s.isReAuction = false →
      s.players.length ≤ s.currentPlayerIndex + 1 →
      reauctionOutcome shuffle (skipPlayer shuffle s)) ∧
    (∀ s tid team player,
      s.currentBidTeam = some tid → s.currentBid ≠ 0 →
      s.teams[tid - 1]? = some team → getCurrentPlayer s = some player →
      ¬ team.remaining < s.currentBid → s.isReAuction = false →
      s.players.length ≤ s.currentPlayerIndex + 1 →
      reauctionOutcome shuffle (soldPlayer shuffle s)) := by
  constructor
  · intro s player hplayer hmain hbound
    unfold skipPlayer
    rw [hplayer]
    dsimp only
    rw [phaseCheck_main_boundary shuffle (skipState s player) hmain hbound]
    exact reauctionOutcome_cons shuffle _ _
      (handleReAuction_outcome shuffle (skipState s player) hmain)
  · intro s tid team player hbt hbid hteam hplayer hfunds hmain hbound
    unfold soldPlayer
    rw [hbt]
    dsimp only
    simp only [if_neg hbid, hteam, hplayer, if_neg hfunds]
    rw [phaseCheck_main_boundary shuffle (soldState s tid team player) hmain hbound]
    exact reauctionOutcome_cons shuffle _ _
      (handleReAuction_outcome shuffle (soldState s tid team player) hmain)

theorem reauction_trigger_policy_witness :
    getCurrentPlayer (initState [samplePlayer1]) = some samplePlayer1 ∧
    reauctionOutcome idShuffle (skipPlayer idShuffle (initState [samplePlayer1])) :=
  ⟨by decide,
   (reauction_trigger_policy idShuffle).1 (initState [samplePlayer1]) samplePlayer1
     (by decide) rfl (by decide)⟩

/-! ### No second re-auction pass -/

theorem step_reauction_frozen (sh : List Player → List Player) (s : AuctionState)
    (op : AuctionOp) (h : s.isReAuction = true) :
    (applyOp sh s op).1.isReAuction = true ∧
    (applyOp sh s op).1.reAuctionUnsold = s.reAuctionUnsold := by
  cases op with
  | sell =>
    show (soldPlayer sh s).1.isReAuction = true ∧
      (soldPlayer sh s).1.reAuctionUnsold = s.reAuctionUnsold
    unfold soldPlayer
    cases s.currentBidTeam with
    | none => exact ⟨h, rfl⟩
    | some tid =>
      dsimp only
      by_cases hbid : s.currentBid = 0
      · rw [if_pos hbid]; exact ⟨h, rfl⟩
      · rw [if_neg hbid]
        cases s.teams[tid - 1]? with
        | none => exact ⟨h, rfl⟩
        | some team =>
          dsimp only
          cases getCurrentPlayer s with
          | none => exact ⟨h, rfl⟩
          | some player =>
            dsimp only
            by_cases hfunds : team.remaining < s.currentBid
            · rw [if_pos hfunds]; exact ⟨h, rfl⟩
            · rw [if_neg hfunds]
              rw [phaseCheck_state_of_reauction sh (soldState s tid team player) h]
              exact ⟨h, rfl⟩
  | skip =>
    show (skipPlayer sh s).1.isReAuction = true ∧
      (skipPlayer sh s).1.reAuctionUnsold = s.reAuctionUnsold
    unfold skipPlayer
    cases getCurrentPlayer s with
    | none => exact ⟨h, rfl⟩
    | some player =>
      dsimp only
      rw [phaseCheck_state_of_reauction sh (skipState s player) h]
      exact ⟨h, rfl⟩

/-- C10: once the phase is re-auction it stays re-auction along every
sell/skip trace and the re-auction queue is never repopulated (so items
pushed back onto the unsold list are never offered again); a skip during
re-auction appends the current item to the unsold list and only advances
the index; and exhausting the re-auction queue broadcasts completion
regardless of the unsold list's contents. -/
theorem reauction_queue_frozen (shuffle : List Player → List Player) :
    (∀ s ops, s.isReAuction = true →
      (runOps shuffle ops s).isReAuction = true ∧
      (runOps shuffle ops s).reAuctionUnsold = s.reAuctionUnsold) ∧
    (∀ s player, s.isReAuction = true → getCurrentPlayer s = some player →
      (skipPlayer shuffle s).1.unsold = s.unsold ++ [player] ∧
      (skipPlayer shuffle s).1.currentPlayerIndex = s.currentPlayerIndex + 1 ∧
      (skipPlayer shuffle s).1.reAuctionUnsold = s.reAuctionUnsold ∧
      (skipPlayer shuffle s).1.isReAuction = true) ∧
    (∀ s player, s.isReAuction = true → getCurrentPlayer s = some player →
      s.reAuctionUnsold.length ≤ s.currentPlayerIndex + 1 →
      ∃ w st, Event.auctionComplete w st ∈ (skipPlayer shuffle s).2) := by
  refine ⟨?_, ?_, ?_⟩
  · intro s ops h
    induction ops generalizing s with
    | nil => exact ⟨h, rfl⟩
    | cons op ops ih =>
      have hstep := step_reauction_frozen shuffle s op h
      have hrest := ih _ hstep.1
      exact ⟨hrest.1, hrest.2.trans hstep.2⟩
  · intro s player h hplayer
    unfold skipPlayer
    rw [hplayer]
    dsimp only
    rw [phaseCheck_state_of_reauction shuffle (skipState s player) h]
    exact ⟨rfl, rfl, rfl, h⟩
  · intro s player h hplayer hlen
    unfold skipPlayer
    rw [hplayer]
    dsimp only
    rw [phaseCheck_reauction_complete shuffle (skipState s player) h hlen]
    exact ⟨(List.insertionSort teamBefore (skipState s player).teams).head?,
      List.insertionSort teamBefore (skipState s player).teams,
      List.mem_cons_of_mem _
        (by unfold declareWinner; exact List.mem_singleton_self _)⟩

/-- A state already in its re-auction phase, offering `samplePlayer2`. -/
def reState : AuctionState :=
  { initState [samplePlayer1] with
      isReAuction := true, reAuctionUnsold := [samplePlayer2],
      currentPlayerIndex := 0, unsold := [] }

theorem reauction_queue_frozen_witness :
    reState.isReAuction = true ∧
    getCurrentPlayer reState = some samplePlayer2 ∧
    (skipPlayer idShuffle reState).1.unsold = reState.unsold ++ [samplePlayer2] ∧
    (∃ w st, Event.auctionComplete w st ∈ (skipPlayer idShuffle reState).2) :=
  ⟨rfl, by decide,
   ((reauction_queue_frozen idShuffle).2.1 reState samplePlayer2 rfl (by decide)).1,
   (reauction_queue_frozen idShuffle).2.2 reState samplePlayer2 rfl (by decide) (by decide)⟩

/-! ### Undo immediately after a sale -/

theorem pushSnapshot_cons (h : List Snapshot) (snap : Snapshot) :
    ∃ rest, pushSnapshot h snap = snap :: rest := by
  unfold pushSnapshot
  split
  next hlen =>
    cases h with
    | nil => simp at hlen
    | cons a t => exact ⟨(a :: t).dropLast, rfl⟩
  next => exact ⟨h, rfl⟩

theorem mergeTeam_strip (t : Team) : mergeTeam t (stripSocket t) = t := by
  cases t; rfl

theorem mergeTeam_strip_of (t3 t : Team) (hs : t3.socketId = t.socketId)
    (hc : t3.isConnected = t.isConnected) : mergeTeam t3 (stripSocket t) = t := by
  cases t
  simp only [mergeTeam, stripSocket] at hs hc ⊢
  simp [hs, hc]

theorem zipWith_merge_strip_self (l : List Team) :
    List.zipWith mergeTeam l (l.map stripSocket) = l := by
  induction l with
  | nil => rfl
  | cons x xs ih =>
    show mergeTeam x (stripSocket x) :: List.zipWith mergeTeam xs (xs.map stripSocket) = x :: xs
    rw [mergeTeam_strip, ih]

theorem zipWith_merge_set_strip (l : List Team) (i : Nat) (t3 t : Team)
    (ht : l[i]? = some t) (hs : t3.socketId = t.socketId)
    (hc : t3.isConnected = t.isConnected) :
    List.zipWith mergeTeam (l.set i t3) (l.map stripSocket) = l := by
  induction l generalizing i with
  | nil => cases ht
  | cons x xs ih =>
    cases i with
    | zero =>
      have hx : x = t := by simpa using ht
      subst hx
      show mergeTeam t3 (stripSocket x) :: List.zipWith mergeTeam xs (xs.map stripSocket) =
        x :: xs
      rw [mergeTeam_strip_of t3 x hs hc, zipWith_merge_strip_self]
    | succ n =>
      have ht' : xs[n]? = some t := by simpa using ht
      show mergeTeam x (stripSocket x) ::
          List.zipWith mergeTeam (xs.set n t3) (xs.map stripSocket) = x :: xs
      rw [mergeTeam_strip, ih n ht']

theorem mergeTeams_restore (l : List Team) (i : Nat) (t3 t : Team)
    (ht : l[i]? = some t) (hs : t3.socketId = t.socketId)
    (hc : t3.isConnected = t.isConnected) :
    mergeTeams (l.set i t3) (l.map stripSocket) = l := by
  unfold mergeTeams
  rw [zipWith_merge_set_strip l i t3 t ht hs hc]
  have hdrop : (l.set i t3).drop (l.map stripSocket).length = [] := by
    rw [List.drop_eq_nil_iff]
    simp
  rw [hdrop, List.append_nil]

theorem undoLastAction_fields (s' : AuctionState) (snap : Snapshot) (rest : List Snapshot)
    (hh : s'.auctionHistory = snap :: rest)
    (hact : strStarts snap.action "BEFORE_" = true) :
    (undoLastAction s').1 =
      restoreAuctionSnapshot { s' with auctionHistory := rest } snap := by
  unfold undoLastAction
  rw [hh]
  dsimp only
  rw [if_pos hact]

/-- C4: an `undoLastAction` immediately following a successful `soldPlayer`
restores all team budgets and rosters, the catalog statuses (hence the sold
item's status), the current index, the bid fields and the queues exactly to
their pre-sale values. -/
theorem undo_after_sell_restores (shuffle : List Player → List Player)
    (s : AuctionState) (tid : Nat) (team : Team) (player : Player)
    (hbt : s.currentBidTeam = some tid) (hbid : s.currentBid ≠ 0)
    (hteam : s.teams[tid - 1]? = some team) (hplayer : getCurrentPlayer s = some player)
    (hfunds : ¬ team.remaining < s.currentBid) :
    (undoLastAction (soldPlayer shuffle s).1).1.teams = s.teams ∧
    (undoLastAction (soldPlayer shuffle s).1).1.allPlayers = s.allPlayers ∧
    (undoLastAction (soldPlayer shuffle s).1).1.currentPlayerIndex = s.currentPlayerIndex ∧
    (undoLastAction (soldPlayer shuffle s).1).1.currentBid = s.currentBid ∧
    (undoLastAction (soldPlayer shuffle s).1).1.currentBidTeam = s.currentBidTeam ∧
    (undoLastAction (soldPlayer shuffle s).1).1.unsold = s.unsold ∧
    (undoLastAction (soldPlayer shuffle s).1).1.reAuctionUnsold = s.reAuctionUnsold ∧
    (undoLastAction (soldPlayer shuffle s).1).1.isReAuction = s.isReAuction := by
  have hsp : (soldPlayer shuffle s).1 = (phaseCheck shuffle (soldState s tid team player)).1 := by
    unfold soldPlayer
    rw [hbt]
    dsimp only
    simp only [if_neg hbid, hteam, hplayer, if_neg hfunds]
  obtain ⟨rest, hpush⟩ :=
    pushSnapshot_cons s.auctionHistory (snapshotOf "BEFORE_SOLD" (some player.name) s)
  have hhist : (phaseCheck shuffle (soldState s tid team player)).1.auctionHistory =
      snapshotOf "BEFORE_SOLD" (some player.name) s :: rest := by
    rw [(phaseCheck_fields shuffle _).2.2.2.1]
    exact hpush
  have hstart : strStarts "BEFORE_SOLD" "BEFORE_" = true := by decide
  have hundo := undoLastAction_fields _ _ _ hhist hstart
  rw [hsp, hundo]
  refine ⟨?_, rfl, rfl, rfl, rfl, rfl, rfl, rfl⟩
  show mergeTeams (phaseCheck shuffle (soldState s tid team player)).1.teams
    (snapshotOf "BEFORE_SOLD" (some player.name) s).teams = s.teams
  rw [(phaseCheck_fields shuffle _).1]
  show mergeTeams (s.teams.set (tid - 1) (soldTeam s team player))
    (s.teams.map stripSocket) = s.teams
  exact mergeTeams_restore s.teams (tid - 1) (soldTeam s team player) team hteam rfl rfl

/-- The first freshly-initialized team. -/
def firstTeam : Team :=
  { id := 1, name := "Team 1", budget := 450000000, remaining := 450000000,
    spent := 0, players := [], synergy := 0, isConnected := false, socketId := none }

/-- A state about to sell `samplePlayer1` to team 1 for 1,000,000. -/
def saleState : AuctionState :=
  { initState [samplePlayer1] with currentBid := 1000000, currentBidTeam := some 1 }

theorem undo_after_sell_restores_witness :
    saleState.currentBidTeam = some 1 ∧
    (undoLastAction (soldPlayer idShuffle saleState).1).1.teams = saleState.teams ∧
    (undoLastAction (soldPlayer idShuffle saleState).1).1.allPlayers = saleState.allPlayers :=
  ⟨rfl,
   (undo_after_sell_restores idShuffle saleState 1 firstTeam samplePlayer1
      rfl (by decide) (by decide) (by decide) (by decide)).1,
   (undo_after_sell_restores idShuffle saleState 1 firstTeam samplePlayer1
      rfl (by decide) (by decide) (by decide) (by decide)).2.1⟩

/-! ### Device takeover on joinAsTeam -/

/-- C9: a `joinAsTeam` request for a slot occupied by a different live
connection forces the previous occupant to disconnect and binds the slot to
the new connection (last writer wins); afterwards the slot holds exactly
the new socket id. -/
theorem joinAsTeam_takeover (s : AuctionState) (teamId : Nat) (sock old : String)
    (existing : Team)
    (hid : 1 ≤ teamId ∧ teamId ≤ 8)
    (hslot : s.teams[teamId - 1]? = some existing)
    (hold : existing.socketId = some old)
    (hne : ¬ old = sock) :
    (∃ t', (joinAsTeam s teamId sock).1.teams[teamId - 1]? = some t' ∧
      t'.socketId = some sock ∧ t'.isConnected = true) ∧
    Event.forceDisconnect old ∈ (joinAsTeam s teamId sock).2 := by
  have hlt : teamId - 1 < s.teams.length := (List.getElem?_eq_some_iff.mp hslot).1
  unfold joinAsTeam
  rw [if_pos hid, hslot]
  dsimp only
  rw [hold]
  dsimp only
  rw [if_neg hne]
  constructor
  · exact ⟨_, List.getElem?_set_self (by simpa using hlt), rfl, rfl⟩
  · exact List.mem_cons_self _ _

/-- Team 1 occupied by the connection `sockA`. -/
def occupiedTeam : Team :=
  { firstTeam with isConnected := true, socketId := some "sockA" }

/-- A state in which team 1's slot is already bound to `sockA`. -/
def occupiedState : AuctionState :=
  { initState [] with teams := occupiedTeam :: initTeams.drop 1 }

theorem joinAsTeam_takeover_witness :
    occupiedState.teams[0]? = some occupiedTeam ∧
    ((∃ t', (joinAsTeam occupiedState 1 "sockB").1.teams[0]? = some t' ∧
        t'.socketId = some "sockB" ∧ t'.isConnected = true) ∧
      Event.forceDisconnect "sockA" ∈ (joinAsTeam occupiedState 1 "sockB").2) :=
  ⟨by decide,
   joinAsTeam_takeover occupiedState 1 "sockB" "sockA" occupiedTeam
     (by decide) (by decide) rfl (by decide)⟩

end ServerB

/-- The entry of `allPlayers` found by serial number has exactly its status
replaced when neither a buyer nor a price is recorded. -/
theorem updatePlayerStatus_at (l : List Player) (sNo status : String) (i : Nat) (q : Player)
    (hfind : l.findIdx? (fun p => p.sNo == sNo) = some i) (hq : l[i]? = some q) :
    (updatePlayerStatus l sNo status none none)[i]? = some { q with status := status } := by
  have hlt : i < l.length := (List.getElem?_eq_some_iff.mp hq).1
  unfold updatePlayerStatus
  rw [hfind]
  dsimp only
  rw [hq]
  dsimp only
  rw [List.getElem?_set_self (by simpa using hlt)]

namespace ServerA

/-- Snapshot of `backend/server.js`: same captured fields except that the
unsold and re-auction queues are not recorded. -/
structure Snapshot where
  action : String
  playerName : Option String
  currentPlayerIndex : Nat
  currentBid : Int
  currentBidTeam : Option Nat
  isReAuction : Bool
  teams : List Team
  allPlayers : List Player
deriving DecidableEq, Repr

/-- Module-level state of `backend/server.js` (same layout as the MongoDB
variant, but with its own snapshot shape and no connected-team model needed
by the claims).  `auctionHistory` is most-recent-first. -/
structure AuctionState where
  players : List Player
  allPlayers : List Player
  unsold : List Player
  currentPlayerIndex : Nat
  currentBid : Int
  currentBidTeam : Option Nat
  isReAuction : Bool
  reAuctionUnsold : List Player
  teams : List Team
  auctionHistory : List Snapshot
deriving DecidableEq, Repr

/-- `getCurrentPlayer()` — same logic as the MongoDB variant. -/
def getCurrentPlayer (s : AuctionState) : Option Player :=
  if s.isReAuction then s.reAuctionUnsold[s.currentPlayerIndex]?
  else if s.players.length ≤ s.currentPlayerIndex then none
  else
    let pps := (s.players.length + 2) / 3
    match (makeSets s.players)[s.currentPlayerIndex / pps]? with
    | none => none
    | some set => set[s.currentPlayerIndex % pps]?

/-- The winner fold of `backend/server.js`:
`teams.reduce((best, team) => team.synergy > (best?.synergy || -Infinity) ? team : best, null)`.
Because of the `|| -Infinity` quirk, a best whose synergy is exactly 0 is
compared against minus infinity, so any team replaces it. -/
def winnerA (ts : List Team) : Option Team :=
  ts.foldl (fun best t =>
    match best with
    | none => some t
    | some b => if b.synergy = 0 ∨ b.synergy < t.synergy then some t else best) none

/-- The mutation block of `skipPlayer` before the phase checks: push the
item onto the unsold list, mark it `unsold`, clear the bid, advance the
pointer. -/
def skipMut (s : AuctionState) (player : Player) : AuctionState :=
  { s with
    unsold := s.unsold ++ [player],
    allPlayers := updatePlayerStatus s.allPlayers player.sNo "unsold" none none,
    currentBid := 0,
    currentBidTeam := none,
    currentPlayerIndex := s.currentPlayerIndex + 1 }

/-- The inline re-auction transition of `backend/server.js`: flip the flag,
move a copy of the unsold list into the re-auction queue, clear the unsold
list, restart the index. -/
def reAuctionEnter (s : AuctionState) : AuctionState :=
  { s with
    isReAuction := true,
    reAuctionUnsold := s.unsold,
    unsold := [],
    currentPlayerIndex := 0 }

/-- `skipPlayer` of `backend/server.js`: no snapshot is taken; the item is
pushed onto the unsold list with status `unsold`; then the inline
re-auction / completion checks and the set-summary broadcast. -/
def skipPlayer (s : AuctionState) : AuctionState × List Event :=
  match getCurrentPlayer s with
  | none => (s, [Event.errorEv "No player available to skip"])
  | some player =>
    let s1 := skipMut s player
    let r :=
      if s1.isReAuction = false ∧ s1.players.length ≤ s1.currentPlayerIndex ∧ s1.unsold ≠ []
      then (reAuctionEnter s1, [Event.reAuctionStart s1.unsold.length])
      else if (if s1.isReAuction then s1.reAuctionUnsold.length else s1.players.length) ≤
          s1.currentPlayerIndex
      then (s1, [Event.auctionCompleteWinnerOnly (winnerA s1.teams)])
      else (s1, [])
    let pps := (r.1.players.length + 2) / 3
    let summary : List Event :=
      if 0 < r.1.currentPlayerIndex ∧ 0 < pps ∧ r.1.currentPlayerIndex % pps = 0 ∧
          r.1.isReAuction = false
      then [Event.setSummary] else []
    (r.1, Event.playerSkipped player.name :: (r.2 ++ summary))

/-- `restoreAuctionSnapshot` of `backend/server.js`: the unsold and
re-auction queues are not captured, hence not restored. -/
def restoreSnapshot (s : AuctionState) (snap : Snapshot) : AuctionState :=
  { s with
    currentPlayerIndex := snap.currentPlayerIndex,
    currentBid := snap.currentBid,
    currentBidTeam := snap.currentBidTeam,
    isReAuction := snap.isReAuction,
    allPlayers := snap.allPlayers,
    teams := mergeTeams s.teams snap.teams }

/-- `undoLastAction` of `backend/server.js`: an empty history is reported;
otherwise the most recent snapshot is popped, and only a `BEFORE_BID`
snapshot is restored — any other popped snapshot is discarded with an
error. -/
def undoLastAction (s : AuctionState) : AuctionState × List Event :=
  match s.auctionHistory with
  | [] => (s, [Event.errorEv "No actions to undo"])
  | snap :: rest =>
    if snap.action = "BEFORE_BID" then
      (restoreSnapshot { s with auctionHistory := rest } snap,
       [Event.undoCompleted (snap.playerName.getD "unknown player")])
    else ({ s with auctionHistory := rest }, [Event.errorEv "No valid bid action to undo"])

theorem undo_empty (s : AuctionState) (h : s.auctionHistory = []) :
    undoLastAction s = (s, [Event.errorEv "No actions to undo"]) := by
  unfold undoLastAction
  rw [h]

/-- A snapshot whose tag does not qualify for undo. -/
def straySnapshot : Snapshot :=
  { action := "SNAPSHOT", playerName := none, currentPlayerIndex := 0,
    currentBid := 0, currentBidTeam := none, isReAuction := false,
    teams := [], allPlayers := [] }

/-- A state whose only history entry is the non-qualifying snapshot. -/
def strayState : AuctionState :=
  { players := [], allPlayers := [], unsold := [], currentPlayerIndex := 0,
    currentBid := 0, currentBidTeam := none, isReAuction := false,
    reAuctionUnsold := [], teams := [], auctionHistory := [straySnapshot] }

/-- C7 counterexample: when the most recent history entry is not a
qualifying snapshot, `undoLastAction` reports the error but the history
stack is *not* left unchanged — the popped entry is discarded. -/
theorem undo_nonqualifying_discards_entry :
    strayState.auctionHistory.head?.map (fun sn => sn.action) = some "SNAPSHOT" ∧
    Event.errorEv "No valid bid action to undo" ∈ (undoLastAction strayState).2 ∧
    (undoLastAction strayState).1.auctionHistory ≠ strayState.auctionHistory := by
  decide

/-- C7 (amended): undo with an empty history reports and changes nothing;
undo whose popped entry is not a `BEFORE_BID` snapshot reports and leaves
every auction field unchanged except that the entry is discarded from the
history; a second consecutive undo after the only qualifying snapshot was
consumed finds an empty history and is a no-op. -/
theorem undo_guard_behaviour (s : AuctionState) :
    (s.auctionHistory = [] →
      undoLastAction s = (s, [Event.errorEv "No actions to undo"])) ∧
    (∀ snap rest, s.auctionHistory = snap :: rest → ¬ snap.action = "BEFORE_BID" →
      (undoLastAction s).1 = { s with auctionHistory := rest } ∧
      (undoLastAction s).2 = [Event.errorEv "No valid bid action to undo"]) ∧
    (∀ snap, s.auctionHistory = [snap] → snap.action = "BEFORE_BID" →
      (undoLastAction (undoLastAction s).1).1 = (undoLastAction s).1 ∧
      (undoLastAction (undoLastAction s).1).2 = [Event.errorEv "No actions to undo"]) := by
  refine ⟨undo_empty s, ?_, ?_⟩
  · intro snap rest hh hne
    unfold undoLastAction
    rw [hh]
    dsimp only
    rw [if_neg hne]
    exact ⟨rfl, rfl⟩
  · intro snap hh hq
    have h1 : (undoLastAction s).1.auctionHistory = [] := by
      unfold undoLastAction
      rw [hh]
      dsimp only
      rw [if_pos hq]
      rfl
    have h2 := undo_empty (undoLastAction s).1 h1
    exact ⟨by rw [h2], by rw [h2]⟩

/-- A state with no history at all. -/
def freshStateA : AuctionState := { strayState with auctionHistory := [] }

/-- A qualifying snapshot. -/
def bidSnapshot : Snapshot := { straySnapshot with action := "BEFORE_BID" }

/-- A state with exactly one qualifying snapshot. -/
def oneBidState : AuctionState := { strayState with auctionHistory := [bidSnapshot] }

theorem undo_guard_behaviour_witness :
    freshStateA.auctionHistory = [] ∧
    undoLastAction freshStateA = (freshStateA, [Event.errorEv "No actions to undo"]) ∧
    (undoLastAction (undoLastAction oneBidState).1).1 = (undoLastAction oneBidState).1 :=
  ⟨rfl, (undo_guard_behaviour freshStateA).1 rfl,
   ((undo_guard_behaviour oneBidState).2.2 bidSnapshot rfl rfl).1⟩

/-- A one-item catalog about to be skipped at the main-sequence boundary. -/
def boundaryState : AuctionState :=
  { players := [samplePlayer1], allPlayers := [samplePlayer1], unsold := [],
    currentPlayerIndex := 0, currentBid := 0, currentBidTeam := none,
    isReAuction := false, reAuctionUnsold := [], teams := [], auctionHistory := [] }

/-- C6 counterexample: a main-phase skip that exhausts the main sequence
does not leave the index advanced by 1 — the re-auction transition resets
it to 0. -/
theorem skip_boundary_resets_index :
    getCurrentPlayer boundaryState = some samplePlayer1 ∧
    boundaryState.isReAuction = false ∧
    (skipPlayer boundaryState).1.currentPlayerIndex ≠ boundaryState.currentPlayerIndex + 1 ∧
    (skipPlayer boundaryState).1.currentPlayerIndex = 0 := by
  decide

/-- C6 (amended): a main-phase skip with an active item marks that item
`unsold` in the full list, clears `currentBid`/`currentBidTeam`, and pushes
the item onto the unsold queue with the index advanced by 1 — unless the
skip exhausts the main sequence, in which case the re-auction transition
moves the pushed unsold queue into `reAuctionUnsold` and resets the index
to 0. -/
theorem skip_effects (s : AuctionState) (player : Player)
    (hp : getCurrentPlayer s = some player) (hmain : s.isReAuction = false) :
    (∀ i q, s.allPlayers.findIdx? (fun p => p.sNo == player.sNo) = some i →
      s.allPlayers[i]? = some q →
      (skipPlayer s).1.allPlayers[i]? = some { q with status := "unsold" }) ∧
    (skipPlayer s).1.currentBid = 0 ∧
    (skipPlayer s).1.currentBidTeam = none ∧
    (s.currentPlayerIndex + 1 < s.players.length →
      (skipPlayer s).1.unsold = s.unsold ++ [player] ∧
      (skipPlayer s).1.currentPlayerIndex = s.currentPlayerIndex + 1) ∧
    (s.players.length ≤ s.currentPlayerIndex + 1 →
      (skipPlayer s).1.reAuctionUnsold = s.unsold ++ [player] ∧
      (skipPlayer s).1.unsold = [] ∧
      (skipPlayer s).1.currentPlayerIndex = 0 ∧
      (skipPlayer s).1.isReAuction = true) := by
  unfold skipPlayer
  rw [hp]
  dsimp only [skipMut, reAuctionEnter]
  by_cases hb : s.players.length ≤ s.currentPlayerIndex + 1
  · rw [if_pos (show s.isReAuction = false ∧ s.players.length ≤ s.currentPlayerIndex + 1 ∧
        s.unsold ++ [player] ≠ [] from ⟨hmain, hb, by simp⟩)]
    refine ⟨?_, rfl, rfl, ?_, ?_⟩
    · intro i q hfind hq
      exact updatePlayerStatus_at s.allPlayers player.sNo "unsold" i q hfind hq
    · intro hlt
      exact absurd hb (by omega)
    · intro _
      exact ⟨rfl, rfl, rfl, rfl⟩
  · rw [if_neg (fun hc => hb hc.2.1)]
    have hif : (if s.isReAuction = true then s.reAuctionUnsold.length
        else s.players.length) = s.players.length := by
      rw [hmain]; simp
    rw [hif, if_neg hb]
    refine ⟨?_, rfl, rfl, ?_, ?_⟩
    · intro i q hfind hq
      exact updatePlayerStatus_at s.allPlayers player.sNo "unsold" i q hfind hq
    · intro _
      exact ⟨rfl, rfl⟩
    · intro hge
      exact absurd hge hb

/-- A two-item catalog with the first item active, away from the boundary. -/
def mainSkipState : AuctionState :=
  { players := [samplePlayer1, samplePlayer2],
    allPlayers := [samplePlayer1, samplePlayer2], unsold := [],
    currentPlayerIndex := 0, currentBid := 0, currentBidTeam := none,
    isReAuction := false, reAuctionUnsold := [], teams := [], auctionHistory := [] }

theorem skip_effects_witness :
    getCurrentPlayer mainSkipState = some samplePlayer1 ∧
    (skipPlayer mainSkipState).1.allPlayers[0]? =
      some { samplePlayer1 with status := "unsold" } ∧
    (skipPlayer mainSkipState).1.unsold = mainSkipState.unsold ++ [samplePlayer1] ∧
    (skipPlayer mainSkipState).1.currentPlayerIndex = 1 ∧
    (skipPlayer mainSkipState).1.currentBid = 0 :=
  ⟨by decide,
   (skip_effects mainSkipState samplePlayer1 (by decide) rfl).1 0 samplePlayer1
     (by decide) (by decide),
   ((skip_effects mainSkipState samplePlayer1 (by decide) rfl).2.2.2.1 (by decide)).1,
   ((skip_effects mainSkipState samplePlayer1 (by decide) rfl).2.2.2.1 (by decide)).2,
   (skip_effects mainSkipState samplePlayer1 (by decide) rfl).2.1⟩

end ServerA

end Auction
